import Mathlib

/-!
Shallow embedding of the simulation-and-painting kernel of `cells.cpp`
(a toroidal Game of Life with mouse painting), together with proofs of
the specification's claims about it.

Modelling conventions:
* the two C arrays `currentState`/`nextState` (`bool [SIM_WIDTH][SIM_HEIGHT]`)
  become functions `Nat → Nat → Bool`; only indices `x < W`, `y < H` are
  ever written by the code, and the model keeps out-of-range entries `false`;
* C `int` coordinates become `Int`; loop counters that the code keeps in
  range become `Nat`;
* the render buffer `renderPoints` (an array with fill count
  `renderPointCount`) becomes a `List (Nat × Nat)`; `Add_Rendered_Point`
  is an append and `renderPointCount` is the list length;
* the grid dimensions `SIM_WIDTH`/`SIM_HEIGHT` are parameters `W H` of
  every definition, instantiated by the source constants 480 × 270;
* the `float` pacing rate `steps_per_second` is modelled as `ℚ`
  (the claims proved about it are insensitive to rounding).
-/

namespace Cells

/-- Source constant `SIM_WIDTH = 480`. -/
def SIM_WIDTH : Nat := 480

/-- Source constant `SIM_HEIGHT = 270`. -/
def SIM_HEIGHT : Nat := 270

/-- Source constant `MAX_STEPS_PER_SECOND = 20`. -/
def MAX_STEPS_PER_SECOND : ℚ := 20

/-- A cell grid: the contents of one of the two `bool [W][H]` arrays. -/
def Grid : Type := Nat → Nat → Bool

/-- Write a single cell of a grid (array assignment `g[x][y] = b`). -/
def writeCell (g : Grid) (x y : Nat) (b : Bool) : Grid :=
  fun a b' => if a = x ∧ b' = y then b else g a b'

/-- The wrap applied to a neighbor index in `Update_Simulation`:
`if (n < 0) n = W - 1; if (n == W) n = 0;`. -/
def wrapIdx (W : Nat) (i : Int) : Nat :=
  if i < 0 then W - 1 else if i = (W : Int) then 0 else i.toNat

/-- Whether the neighbor of `(x, y)` at offset `(dx, dy)` is alive, reading
through the toroidal wrap: `currentState[nx][ny]` for the wrapped `nx, ny`. -/
def neighborAlive (W H : Nat) (g : Grid) (x y : Nat) (dx dy : Int) : Bool :=
  g (wrapIdx W ((x : Int) + dx)) (wrapIdx H ((y : Int) + dy))

/-- The inner `dy` loop of the neighbor count in `Update_Simulation`,
including the `continue` for the center cell and the early
`if (neighbors > 3) break;`. `n` is the running `neighbors` counter. -/
def innerLoop (W H : Nat) (g : Grid) (x y : Nat) (dx : Int) :
    List Int → Nat → Nat
  | [], n => n
  | dy :: rest, n =>
    if dx = 0 ∧ dy = 0 then innerLoop W H g x y dx rest n
    else
      let n' := if neighborAlive W H g x y dx dy then n + 1 else n
      if n' > 3 then n' else innerLoop W H g x y dx rest n'

/-- The neighbor count computed by `Update_Simulation` for cell `(x, y)`:
the double loop over `dx, dy ∈ {-1, 0, 1}` with the early inner break. -/
def countNeighbors (W H : Nat) (g : Grid) (x y : Nat) : Nat :=
  List.foldl (fun n dx => innerLoop W H g x y dx [-1, 0, 1] n) 0 [-1, 0, 1]

/-- The list of the 8 neighbor offsets (all `(dx, dy)` pairs except `(0,0)`),
in the iteration order of the nested loops. -/
def neighborOffsets : List (Int × Int) :=
  [(-1, -1), (-1, 0), (-1, 1), (0, -1), (0, 1), (1, -1), (1, 0), (1, 1)]

/-- Exhaustive toroidal neighbor count: the number of live cells among all
8 wrapped neighbors, with no early exit. Specification-level reference
count for `Update_Simulation`'s early-exit loop. -/
def countNeighborsFull (W H : Nat) (g : Grid) (x y : Nat) : Nat :=
  (neighborOffsets.filter (fun p => neighborAlive W H g x y p.1 p.2)).length

/-- The new value `Update_Simulation` writes to `nextState[x][y]`, as a
function of the early-exit neighbor count `n` and the old cell value:
live cells survive exactly on `2 ≤ n ≤ 3`, dead cells are born on `n = 3`. -/
def stepCellWith (n : Nat) (alive : Bool) : Bool :=
  if alive then (if n < 2 ∨ n > 3 then false else true)
  else (if n = 3 then true else false)

/-- The new value of cell `(x, y)` after one step, using the code's
early-exit neighbor count. -/
def stepCell (W H : Nat) (g : Grid) (x y : Nat) : Bool :=
  stepCellWith (countNeighbors W H g x y) (g x y)

/-- Reference new value of cell `(x, y)` after one step, using the
exhaustive neighbor count. -/
def stepCellFull (W H : Nat) (g : Grid) (x y : Nat) : Bool :=
  stepCellWith (countNeighborsFull W H g x y) (g x y)

/-- All cells of the grid in the iteration order of `Update_Simulation`:
`x` in the outer loop, `y` in the inner loop. -/
def allCells (W H : Nat) : List (Nat × Nat) :=
  (List.range W).flatMap (fun x => (List.range H).map (fun y => (x, y)))

/-- The mutable globals of the kernel: the two grid buffers and the render
buffer (`renderPoints` up to `renderPointCount`, as a list). -/
structure SimState where
  current : Grid
  next : Grid
  renderPoints : List (Nat × Nat)

/-- The startup state: static arrays are zero-initialized, so both buffers
are all-dead and the render buffer is empty. -/
def initState : SimState :=
  { current := fun _ _ => false, next := fun _ _ => false, renderPoints := [] }

/-- The body of `Update_Simulation`'s double loop for one cell `p`:
computes the early-exit neighbor count of `p` in the old grid, writes the
resulting value to the `next` buffer, and calls `Add_Rendered_Point p`
exactly when the written value is `true`. The accumulator carries the
`next` buffer and the render list being rebuilt. -/
def stepFoldF (W H : Nat) (cur : Grid) (acc : Grid × List (Nat × Nat))
    (p : Nat × Nat) : Grid × List (Nat × Nat) :=
  let b := stepCell W H cur p.1 p.2
  (writeCell acc.1 p.1 p.2 b, if b then acc.2 ++ [p] else acc.2)

/-- `Update_Simulation`: clears the render buffer (`Clear_Rendered_Points`),
runs the double loop over all cells writing `nextState` and re-adding the
live cells' coordinates, then swaps the two buffers (`std::swap`). -/
def Update_Simulation (W H : Nat) (s : SimState) : SimState :=
  let r := (allCells W H).foldl (stepFoldF W H s.current) (s.next, [])
  { current := r.1, next := s.current, renderPoints := r.2 }

/-- `Try_Paint_Point(x, y)`: if `(x, y)` is inside the grid, sets
`currentState[x][y]` alive when it was dead (appending the point to the
render buffer) and returns `true`; otherwise returns `false` and changes
nothing. The returned pair is (new state, returned bool). -/
def Try_Paint_Point (W H : Nat) (s : SimState) (x y : Int) :
    SimState × Bool :=
  if 0 ≤ x ∧ 0 ≤ y ∧ x < (W : Int) ∧ y < (H : Int) then
    if s.current x.toNat y.toNat = false then
      ({ s with
          current := writeCell s.current x.toNat y.toNat true,
          renderPoints := s.renderPoints ++ [(x.toNat, y.toNat)] }, true)
    else (s, true)
  else (s, false)

/-- The `for (x = x0; x <= x1; x++)` loop of `Paint_Line_Shallow`, returning
the sequence of coordinates passed to `Try_Paint_Point` in order. The fuel
`n` is the number of remaining iterations (`x1 - x + 1` at entry); `e` is
the running Bresenham `error`. -/
def shallowLoop (stp dx dy : Int) : Nat → Int → Int → Int → List (Int × Int)
  | 0, _, _, _ => []
  | n + 1, x, y, e =>
    (x, y) ::
      (if e > 0 then shallowLoop stp dx dy n (x + 1) (y + stp) (e - 2 * dx + 2 * dy)
       else shallowLoop stp dx dy n (x + 1) y (e + 2 * dy))

/-- The coordinates visited by `Paint_Line_Shallow(x0, y0, x1, y1, dx, dy)`:
step direction from the sign of `y1 - y0`, error seeded with `2*dy - dx`,
one visit per `x` from `x0` through `x1`. -/
def Paint_Line_Shallow_pts (x0 y0 x1 y1 dx dy : Int) : List (Int × Int) :=
  shallowLoop (if y1 < y0 then -1 else 1) dx dy (x1 - x0 + 1).toNat x0 y0
    (2 * dy - dx)

/-- The `for (y = y0; y <= y1; y++)` loop of `Paint_Line_Steep`, the mirror
image of `shallowLoop` with the roles of the axes swapped. -/
def steepLoop (stp dx dy : Int) : Nat → Int → Int → Int → List (Int × Int)
  | 0, _, _, _ => []
  | n + 1, x, y, e =>
    (x, y) ::
      (if e > 0 then steepLoop stp dx dy n (x + stp) (y + 1) (e - 2 * dy + 2 * dx)
       else steepLoop stp dx dy n x (y + 1) (e + 2 * dx))

/-- The coordinates visited by `Paint_Line_Steep(x0, y0, x1, y1, dx, dy)`. -/
def Paint_Line_Steep_pts (x0 y0 x1 y1 dx dy : Int) : List (Int × Int) :=
  steepLoop (if x1 < x0 then -1 else 1) dx dy (y1 - y0 + 1).toNat x0 y0
    (2 * dx - dy)

/-- The coordinates visited by `Paint_Line(x0, y0, x1, y1)`: slope-based
dispatch on `dy ≤ dx` with direction normalization by endpoint swap. -/
def Paint_Line_pts (x0 y0 x1 y1 : Int) : List (Int × Int) :=
  let dx := |x1 - x0|
  let dy := |y1 - y0|
  if dy ≤ dx then
    if x0 ≤ x1 then Paint_Line_Shallow_pts x0 y0 x1 y1 dx dy
    else Paint_Line_Shallow_pts x1 y1 x0 y0 dx dy
  else
    if y0 ≤ y1 then Paint_Line_Steep_pts x0 y0 x1 y1 dx dy
    else Paint_Line_Steep_pts x1 y1 x0 y0 dx dy

/-- The state effect of `Paint_Line(x0, y0, x1, y1)`: `Try_Paint_Point` on
every visited coordinate, in visit order. -/
def Paint_Line_state (W H : Nat) (s : SimState) (x0 y0 x1 y1 : Int) :
    SimState :=
  (Paint_Line_pts x0 y0 x1 y1).foldl
    (fun st p => (Try_Paint_Point W H st p.1 p.2).1) s

/-- The pacing state: `steps_per_second` (float, modelled as `ℚ`) and
`last_step_time` (`SDL_GetTicks()` milliseconds). -/
structure PacingState where
  rate : ℚ
  lastStepTime : Nat

/-- The mouse-wheel handler in `SDL_AppEvent`: add the wheel delta to
`steps_per_second`, then clamp to `[0, MAX_STEPS_PER_SECOND]`. -/
def wheelAdjust (rate delta : ℚ) : ℚ :=
  let r := rate + delta
  let r := if r < 0 then 0 else r
  if r > MAX_STEPS_PER_SECOND then MAX_STEPS_PER_SECOND else r

/-- The pacing gate of `SDL_AppIterate` at tick `now`: if the rate is
positive and the elapsed seconds reach `1 / steps_per_second`, the
simulation is updated and `last_step_time` is set to `now`. The returned
`Bool` records whether `Update_Simulation` was invoked this frame. -/
def appIterateGate (p : PacingState) (now : Nat) : PacingState × Bool :=
  if p.rate > 0 then
    let elapsed : ℚ := ((now - p.lastStepTime : Nat) : ℚ) / 1000
    let seconds_per_step : ℚ := 1 / p.rate
    if elapsed ≥ seconds_per_step then
      ({ p with lastStepTime := now }, true)
    else (p, false)
  else (p, false)

/-- The number of `Update_Simulation` invocations over a sequence of frame
ticks with the given `SDL_GetTicks()` values. -/
def frameStepCount (p : PacingState) : List Nat → Nat
  | [] => 0
  | now :: rest =>
    let r := appIterateGate p now
    (if r.2 then 1 else 0) + frameStepCount r.1 rest

/-- Two grid coordinates differ by at most one in each axis. -/
def adjacent (p q : Int × Int) : Prop :=
  (q.1 - p.1).natAbs ≤ 1 ∧ (q.2 - p.2).natAbs ≤ 1

/-- Specification-level variant of the loop body, modelled from the spec's
words for the refinement claim: identical to `stepFoldF` except that the
neighbor count is exhaustive (no early exit). -/
def stepFoldFullF (W H : Nat) (cur : Grid) (acc : Grid × List (Nat × Nat))
    (p : Nat × Nat) : Grid × List (Nat × Nat) :=
  let b := stepCellFull W H cur p.1 p.2
  (writeCell acc.1 p.1 p.2 b, if b then acc.2 ++ [p] else acc.2)

/-- Specification-level variant of `Update_Simulation` with exhaustive
neighbor counting, for the refinement claim. -/
def Update_Simulation_full (W H : Nat) (s : SimState) : SimState :=
  let r := (allCells W H).foldl (stepFoldFullF W H s.current) (s.next, [])
  { current := r.1, next := s.current, renderPoints := r.2 }

/-- A grid whose only live cell is `(0, 0)`, used to exhibit the toroidal
wrap at the far corners. -/
def singleCell : Grid := fun a b => decide (a = 0 ∧ b = 0)

/-- The states of the kernel reachable from startup under any interleaving
of the painting operations (`Try_Paint_Point`, `Paint_Line`) and
simulation steps (`Update_Simulation`). -/
inductive Reachable (W H : Nat) : SimState → Prop
  | init : Reachable W H initState
  | paint (s : SimState) (x y : Int) (h : Reachable W H s) :
      Reachable W H (Try_Paint_Point W H s x y).1
  | line (s : SimState) (x0 y0 x1 y1 : Int) (h : Reachable W H s) :
      Reachable W H (Paint_Line_state W H s x0 y0 x1 y1)
  | step (s : SimState) (h : Reachable W H s) :
      Reachable W H (Update_Simulation W H s)

/-- The state invariant maintained by the kernel: out-of-range entries of
both buffers are dead, and the render buffer lists exactly the live
in-range cells of "current", without duplicates. -/
def Inv (W H : Nat) (s : SimState) : Prop :=
  (∀ x y : Nat, ¬(x < W ∧ y < H) → s.current x y = false) ∧
  (∀ x y : Nat, ¬(x < W ∧ y < H) → s.next x y = false) ∧
  s.renderPoints.Nodup ∧
  (∀ p : Nat × Nat, p ∈ s.renderPoints ↔
    p.1 < W ∧ p.2 < H ∧ s.current p.1 p.2 = true)

/-- The exhaustive live count of one `dx` column of the neighbor loop:
the non-center cells `(dx, dy)` for `dy ∈ dys` that are alive. -/
def colCount (W H : Nat) (g : Grid) (x y : Nat) (dx : Int)
    (dys : List Int) : Nat :=
  (dys.filter
    (fun dy => !(decide (dx = 0 ∧ dy = 0)) && neighborAlive W H g x y dx dy)).length

theorem colCount_cons_center (W H : Nat) (g : Grid) (x y : Nat)
    (dx dy : Int) (rest : List Int) (hcen : dx = 0 ∧ dy = 0) :
    colCount W H g x y dx (dy :: rest) = colCount W H g x y dx rest := by
  simp [colCount, List.filter_cons, hcen]

theorem colCount_cons_alive (W H : Nat) (g : Grid) (x y : Nat)
    (dx dy : Int) (rest : List Int) (hcen : ¬(dx = 0 ∧ dy = 0))
    (ha : neighborAlive W H g x y dx dy = true) :
    colCount W H g x y dx (dy :: rest) = colCount W H g x y dx rest + 1 := by
  have h2 : ¬dx = 0 ∨ ¬dy = 0 := by tauto
  simp [colCount, List.filter_cons, h2, ha]

theorem colCount_cons_dead (W H : Nat) (g : Grid) (x y : Nat)
    (dx dy : Int) (rest : List Int)
    (ha : neighborAlive W H g x y dx dy = false) :
    colCount W H g x y dx (dy :: rest) = colCount W H g x y dx rest := by
  simp [colCount, List.filter_cons, ha]

theorem innerLoop_ge (W H : Nat) (g : Grid) (x y : Nat) (dx : Int)
    (dys : List Int) (n : Nat) : n ≤ innerLoop W H g x y dx dys n := by
  induction dys generalizing n with
  | nil => simp [innerLoop]
  | cons dy rest ih =>
    simp only [innerLoop]
    by_cases hcen : dx = 0 ∧ dy = 0
    · simpa [hcen] using ih n
    · simp only [if_neg hcen]
      by_cases ha : neighborAlive W H g x y dx dy = true
      · simp only [ha, if_true]
        split
        · omega
        · exact le_trans (by omega) (ih (n + 1))
      · simp only [Bool.not_eq_true] at ha
        simp only [ha, Bool.false_eq_true, if_false]
        split
        · omega
        · exact ih n

theorem innerLoop_le (W H : Nat) (g : Grid) (x y : Nat) (dx : Int)
    (dys : List Int) (n : Nat) :
    innerLoop W H g x y dx dys n ≤ n + colCount W H g x y dx dys := by
  induction dys generalizing n with
  | nil => simp [innerLoop, colCount]
  | cons dy rest ih =>
    simp only [innerLoop]
    by_cases hcen : dx = 0 ∧ dy = 0
    · rw [colCount_cons_center W H g x y dx dy rest hcen]
      simpa [hcen] using ih n
    · simp only [if_neg hcen]
      by_cases ha : neighborAlive W H g x y dx dy = true
      · rw [colCount_cons_alive W H g x y dx dy rest hcen ha]
        simp only [ha, if_true]
        split
        · have := innerLoop_ge W H g x y dx rest (n + 1)
          have := ih (n + 1)
          omega
        · have := ih (n + 1)
          omega
      · simp only [Bool.not_eq_true] at ha
        rw [colCount_cons_dead W H g x y dx dy rest ha]
        simp only [ha, Bool.false_eq_true, if_false]
        split
        · omega
        · exact ih n

theorem innerLoop_eq_of_le_three (W H : Nat) (g : Grid) (x y : Nat)
    (dx : Int) (dys : List Int) (n : Nat)
    (h : n + colCount W H g x y dx dys ≤ 3) :
    innerLoop W H g x y dx dys n = n + colCount W H g x y dx dys := by
  induction dys generalizing n with
  | nil => simp [innerLoop, colCount]
  | cons dy rest ih =>
    simp only [innerLoop]
    by_cases hcen : dx = 0 ∧ dy = 0
    · rw [colCount_cons_center W H g x y dx dy rest hcen] at h ⊢
      simpa [hcen] using ih n h
    · simp only [if_neg hcen]
      by_cases ha : neighborAlive W H g x y dx dy = true
      · rw [colCount_cons_alive W H g x y dx dy rest hcen ha] at h ⊢
        simp only [ha, if_true]
        have h2 : n + 1 + colCount W H g x y dx rest ≤ 3 := by omega
        split
        · omega
        · rw [ih (n + 1) h2]
          omega
      · simp only [Bool.not_eq_true] at ha
        rw [colCount_cons_dead W H g x y dx dy rest ha] at h ⊢
        simp only [ha, Bool.false_eq_true, if_false]
        split
        · omega
        · exact ih n h

theorem innerLoop_ge_four (W H : Nat) (g : Grid) (x y : Nat) (dx : Int)
    (dys : List Int) (n : Nat)
    (h : 4 ≤ n + colCount W H g x y dx dys) :
    4 ≤ innerLoop W H g x y dx dys n := by
  induction dys generalizing n with
  | nil => simp only [colCount, List.filter_nil, List.length_nil] at h
           simpa [innerLoop] using h
  | cons dy rest ih =>
    simp only [innerLoop]
    by_cases hcen : dx = 0 ∧ dy = 0
    · rw [colCount_cons_center W H g x y dx dy rest hcen] at h
      simpa [hcen] using ih n h
    · simp only [if_neg hcen]
      by_cases ha : neighborAlive W H g x y dx dy = true
      · rw [colCount_cons_alive W H g x y dx dy rest hcen ha] at h
        simp only [ha, if_true]
        split
        · omega
        · exact ih (n + 1) (by omega)
      · simp only [Bool.not_eq_true] at ha
        rw [colCount_cons_dead W H g x y dx dy rest ha] at h
        simp only [ha, Bool.false_eq_true, if_false]
        split
        · omega
        · exact ih n h

/-- The exhaustive neighbor count is the sum of the three exhaustive
column counts, in loop order. -/
theorem countNeighborsFull_eq_cols (W H : Nat) (g : Grid) (x y : Nat) :
    countNeighborsFull W H g x y =
      colCount W H g x y (-1) [-1, 0, 1] + colCount W H g x y 0 [-1, 0, 1] +
        colCount W H g x y 1 [-1, 0, 1] := by
  simp only [countNeighborsFull, colCount, neighborOffsets, ← List.countP_eq_length_filter,
    List.countP_cons, List.countP_nil]
  norm_num
  ring

theorem colCount_le_three (W H : Nat) (g : Grid) (x y : Nat) (dx : Int) :
    colCount W H g x y dx [-1, 0, 1] ≤ 3 := by
  have := List.length_filter_le
    (fun dy => !(decide (dx = 0 ∧ dy = 0)) && neighborAlive W H g x y dx dy)
    ([-1, 0, 1] : List Int)
  simpa [colCount] using this

theorem countNeighbors_unfold (W H : Nat) (g : Grid) (x y : Nat) :
    countNeighbors W H g x y =
      innerLoop W H g x y 1 [-1, 0, 1]
        (innerLoop W H g x y 0 [-1, 0, 1]
          (innerLoop W H g x y (-1) [-1, 0, 1] 0)) := by
  simp [countNeighbors]

/-- When the true neighbor count is at most 3, the early-exit loop never
breaks and computes the exact count. -/
theorem countNeighbors_eq_of_le_three (W H : Nat) (g : Grid) (x y : Nat)
    (h : countNeighborsFull W H g x y ≤ 3) :
    countNeighbors W H g x y = countNeighborsFull W H g x y := by
  rw [countNeighbors_unfold, countNeighborsFull_eq_cols] at *
  have e1 : innerLoop W H g x y (-1) [-1, 0, 1] 0 =
      colCount W H g x y (-1) [-1, 0, 1] := by
    simpa using innerLoop_eq_of_le_three W H g x y (-1) [-1, 0, 1] 0 (by omega)
  rw [e1]
  have e2 := innerLoop_eq_of_le_three W H g x y 0 [-1, 0, 1]
    (colCount W H g x y (-1) [-1, 0, 1]) (by omega)
  rw [e2]
  have e3 := innerLoop_eq_of_le_three W H g x y 1 [-1, 0, 1]
    (colCount W H g x y (-1) [-1, 0, 1] + colCount W H g x y 0 [-1, 0, 1]) (by omega)
  rw [e3]

/-- When the true neighbor count is at least 4, the early-exit count is
also at least 4 (the break can only fire once the count exceeds 3). -/
theorem countNeighbors_ge_four (W H : Nat) (g : Grid) (x y : Nat)
    (h : 4 ≤ countNeighborsFull W H g x y) :
    4 ≤ countNeighbors W H g x y := by
  rw [countNeighbors_unfold]
  rw [countNeighborsFull_eq_cols] at h
  have e1 : innerLoop W H g x y (-1) [-1, 0, 1] 0 =
      colCount W H g x y (-1) [-1, 0, 1] := by
    simpa using innerLoop_eq_of_le_three W H g x y (-1) [-1, 0, 1] 0
      (by have := colCount_le_three W H g x y (-1); omega)
  rw [e1]
  by_cases h2 : colCount W H g x y (-1) [-1, 0, 1] +
      colCount W H g x y 0 [-1, 0, 1] ≤ 3
  · have e2 := innerLoop_eq_of_le_three W H g x y 0 [-1, 0, 1]
      (colCount W H g x y (-1) [-1, 0, 1]) h2
    rw [e2]
    exact innerLoop_ge_four W H g x y 1 [-1, 0, 1] _ (by omega)
  · have e2 := innerLoop_ge_four W H g x y 0 [-1, 0, 1]
      (colCount W H g x y (-1) [-1, 0, 1]) (by omega)
    exact le_trans e2 (innerLoop_ge W H g x y 1 [-1, 0, 1] _)

/-- Behavioral equivalence of the early-exit step and the exhaustive step:
the transition rule only distinguishes counts 0–3 from "4 or more". -/
theorem stepCell_eq_stepCellFull (W H : Nat) (g : Grid) (x y : Nat) :
    stepCell W H g x y = stepCellFull W H g x y := by
  unfold stepCell stepCellFull
  by_cases h : countNeighborsFull W H g x y ≤ 3
  · rw [countNeighbors_eq_of_le_three W H g x y h]
  · have h4 : 4 ≤ countNeighborsFull W H g x y := by omega
    have h4e := countNeighbors_ge_four W H g x y h4
    cases hg : g x y
    · simp only [stepCellWith, hg, Bool.false_eq_true, if_false]
      rw [if_neg (by omega), if_neg (by omega)]
    · simp only [stepCellWith, hg, if_true]
      rw [if_pos (by omega), if_pos (by omega)]

theorem writeCell_same (g : Grid) (x y : Nat) (b : Bool) :
    writeCell g x y b x y = b := by
  simp [writeCell]

theorem writeCell_ne (g : Grid) (x y : Nat) (b : Bool) (a c : Nat)
    (h : ¬(a = x ∧ c = y)) : writeCell g x y b a c = g a c := by
  simp [writeCell, h]

theorem allCells_mem (W H : Nat) (p : Nat × Nat) :
    p ∈ allCells W H ↔ p.1 < W ∧ p.2 < H := by
  rcases p with ⟨a, b⟩
  simp only [allCells, List.mem_flatMap, List.mem_map, List.mem_range]
  constructor
  · rintro ⟨x, hx, y, hy, h⟩
    injection h with h1 h2
    subst h1; subst h2
    exact ⟨hx, hy⟩
  · rintro ⟨ha, hb⟩
    exact ⟨a, ha, b, hb, rfl⟩

theorem allCells_nodup (W H : Nat) : (allCells W H).Nodup := by
  rw [allCells, List.nodup_flatMap]
  constructor
  · intro x _
    exact (List.nodup_range H).map (fun a b h => by injection h)
  · refine (List.pairwise_lt_range W).imp ?_
    intro a b hab
    intro p hp hq
    simp only [List.mem_map, List.mem_range] at hp hq
    rcases hp with ⟨y1, _, h1⟩
    rcases hq with ⟨y2, _, h2⟩
    rw [← h1] at h2
    injection h2 with h3 _
    omega

theorem allCells_length (W H : Nat) : (allCells W H).length = W * H := by
  simp only [allCells, List.length_flatMap, List.length_map, List.length_range]
  induction W with
  | zero => simp
  | succ n ih =>
    rw [List.range_succ]
    simp [ih]
    ring

theorem foldl_stepFoldF_snd (W H : Nat) (cur : Grid) (l : List (Nat × Nat)) :
    ∀ acc : Grid × List (Nat × Nat),
      (l.foldl (stepFoldF W H cur) acc).2 =
        acc.2 ++ l.filter (fun p => stepCell W H cur p.1 p.2) := by
  induction l with
  | nil => intro acc; simp
  | cons p rest ih =>
    intro acc
    simp only [List.foldl_cons, List.filter_cons]
    rw [ih]
    unfold stepFoldF
    cases hb : stepCell W H cur p.1 p.2 <;> simp [hb]

theorem foldl_stepFoldF_fst_not_mem (W H : Nat) (cur : Grid)
    (l : List (Nat × Nat)) : ∀ (acc : Grid × List (Nat × Nat)) (a b : Nat),
      (a, b) ∉ l → (l.foldl (stepFoldF W H cur) acc).1 a b = acc.1 a b := by
  induction l with
  | nil => intro acc a b _; rfl
  | cons p rest ih =>
    intro acc a b h
    simp only [List.mem_cons, not_or] at h
    simp only [List.foldl_cons]
    rw [ih _ a b h.2]
    unfold stepFoldF
    refine writeCell_ne _ _ _ _ _ _ ?_
    rintro ⟨h1, h2⟩
    exact h.1 (by rw [h1, h2])

theorem foldl_stepFoldF_fst_mem (W H : Nat) (cur : Grid)
    (l : List (Nat × Nat)) : ∀ (acc : Grid × List (Nat × Nat)) (a b : Nat),
      (a, b) ∈ l →
      (l.foldl (stepFoldF W H cur) acc).1 a b = stepCell W H cur a b := by
  induction l with
  | nil => intro acc a b h; cases h
  | cons p rest ih =>
    intro acc a b h
    simp only [List.foldl_cons]
    by_cases hr : (a, b) ∈ rest
    · exact ih _ a b hr
    · have hp : p = (a, b) := by
        rcases List.mem_cons.1 h with h1 | h1
        · exact h1.symm
        · exact absurd h1 hr
      rw [foldl_stepFoldF_fst_not_mem W H cur rest _ a b hr]
      subst hp
      unfold stepFoldF
      exact writeCell_same _ _ _ _

/-- The cell values of the new "current" grid after `Update_Simulation`:
every in-range cell holds the stepped value of the old "current" grid. -/
theorem Update_Simulation_current (W H : Nat) (s : SimState) (x y : Nat)
    (hx : x < W) (hy : y < H) :
    (Update_Simulation W H s).current x y = stepCell W H s.current x y := by
  unfold Update_Simulation
  exact foldl_stepFoldF_fst_mem W H s.current (allCells W H) _ x y
    ((allCells_mem W H (x, y)).2 ⟨hx, hy⟩)

/-- Out-of-range entries of the new "current" grid are carried over from
the old "next" buffer (the loop never writes them). -/
theorem Update_Simulation_current_out (W H : Nat) (s : SimState) (x y : Nat)
    (h : ¬(x < W ∧ y < H)) :
    (Update_Simulation W H s).current x y = s.next x y := by
  unfold Update_Simulation
  refine foldl_stepFoldF_fst_not_mem W H s.current (allCells W H) _ x y ?_
  intro hmem
  exact h ((allCells_mem W H (x, y)).1 hmem)

/-- After a step, the old "current" buffer becomes the new "next" buffer
(the `std::swap`). -/
theorem Update_Simulation_next (W H : Nat) (s : SimState) :
    (Update_Simulation W H s).next = s.current := rfl

/-- After a step, the render buffer holds exactly the cells the step wrote
alive, in iteration order, independent of its previous contents. -/
theorem Update_Simulation_renderPoints (W H : Nat) (s : SimState) :
    (Update_Simulation W H s).renderPoints =
      (allCells W H).filter (fun p => stepCell W H s.current p.1 p.2) := by
  unfold Update_Simulation
  exact foldl_stepFoldF_snd W H s.current (allCells W H) _

/-- C1: after one `Update_Simulation`, every cell's new "current" value
follows the Game-of-Life rule on its exhaustive toroidal neighbor count in
the old "current" grid: count 3 → alive, count 2 → prior state, any other
count → dead. -/
theorem claim_C1 (W H : Nat) (s : SimState) (x y : Nat)
    (hx : x < W) (hy : y < H) :
    (countNeighborsFull W H s.current x y = 3 →
      (Update_Simulation W H s).current x y = true) ∧
    (countNeighborsFull W H s.current x y = 2 →
      (Update_Simulation W H s).current x y = s.current x y) ∧
    (countNeighborsFull W H s.current x y ≠ 2 ∧
        countNeighborsFull W H s.current x y ≠ 3 →
      (Update_Simulation W H s).current x y = false) := by
  rw [Update_Simulation_current W H s x y hx hy, stepCell_eq_stepCellFull]
  unfold stepCellFull stepCellWith
  refine ⟨?_, ?_, ?_⟩
  · intro h3
    cases hg : s.current x y <;> simp [hg, h3]
  · intro h2
    cases hg : s.current x y <;> simp [hg, h2]
  · rintro ⟨h2, h3⟩
    cases hg : s.current x y
    · simp [hg, h3]
    · simp only [hg, stepCellWith, if_true]
      rw [if_pos (by omega)]

/-- Witness for C1 at a concrete input: a 3×3 grid with a single live cell
painted at (1,1); the center has 0 live neighbors, so it dies. -/
theorem claim_C1_witness :
    countNeighborsFull 3 3 initState.current 1 1 ≠ 2 ∧
    countNeighborsFull 3 3 initState.current 1 1 ≠ 3 ∧
    (Update_Simulation 3 3 initState).current 1 1 = false := by
  have h := claim_C1 3 3 initState 1 1 (by decide) (by decide)
  exact ⟨by decide, by decide, h.2.2 ⟨by decide, by decide⟩⟩

/-- C3: `Update_Simulation` with the early-exit neighbor counting produces
exactly the same state (new "current", new "next", and rebuilt render
buffer) as the same step with exhaustive neighbor counting: the early exit
has no behavioral effect. -/
theorem claim_C3 (W H : Nat) (s : SimState) :
    Update_Simulation W H s = Update_Simulation_full W H s := by
  unfold Update_Simulation Update_Simulation_full
  have h : stepFoldF W H s.current = stepFoldFullF W H s.current := by
    funext acc p
    unfold stepFoldF stepFoldFullF
    rw [stepCell_eq_stepCellFull]
  rw [h]

/-- C4: the new "current" state after a step is a function of the old
"current" state only: two runs from the same "current" but arbitrary
differing "next" buffers (and render buffers) produce the same new
"current" state on every cell, and the same render buffer. -/
theorem claim_C4 (W H : Nat) (cur next1 next2 : Grid)
    (r1 r2 : List (Nat × Nat)) (x y : Nat) (hx : x < W) (hy : y < H) :
    (Update_Simulation W H ⟨cur, next1, r1⟩).current x y =
      (Update_Simulation W H ⟨cur, next2, r2⟩).current x y ∧
    (Update_Simulation W H ⟨cur, next1, r1⟩).renderPoints =
      (Update_Simulation W H ⟨cur, next2, r2⟩).renderPoints := by
  constructor
  · rw [Update_Simulation_current W H ⟨cur, next1, r1⟩ x y hx hy,
      Update_Simulation_current W H ⟨cur, next2, r2⟩ x y hx hy]
  · rw [Update_Simulation_renderPoints, Update_Simulation_renderPoints]

/-- Witness for C4 at a concrete input: a 2×2 all-dead "current" with two
different stale "next" buffers. -/
theorem claim_C4_witness :
    (Update_Simulation 2 2 ⟨fun _ _ => false, fun _ _ => false, []⟩).current 0 0 =
      (Update_Simulation 2 2 ⟨fun _ _ => false, fun _ _ => true, [(5, 5)]⟩).current 0 0 := by
  exact (claim_C4 2 2 (fun _ _ => false) (fun _ _ => false) (fun _ _ => true)
    [] [(5, 5)] 0 0 (by decide) (by decide)).1

/-- C6: after every `Update_Simulation`, the render buffer contains exactly
the coordinates of the cells alive in the new "current" state, each exactly
once, in the step's iteration order over the grid (with the buffer cleared
first, so its prior contents are irrelevant). -/
theorem claim_C6 (W H : Nat) (s : SimState) :
    (Update_Simulation W H s).renderPoints =
      (allCells W H).filter
        (fun p => (Update_Simulation W H s).current p.1 p.2) ∧
    (Update_Simulation W H s).renderPoints.Nodup := by
  have hfil : (allCells W H).filter
      (fun p => (Update_Simulation W H s).current p.1 p.2) =
      (allCells W H).filter (fun p => stepCell W H s.current p.1 p.2) := by
    refine List.filter_congr ?_
    intro p hp
    have hb := (allCells_mem W H p).1 hp
    rw [Update_Simulation_current W H s p.1 p.2 hb.1 hb.2]
  constructor
  · rw [Update_Simulation_renderPoints, hfil]
  · rw [Update_Simulation_renderPoints]
    exact (allCells_nodup W H).filter _

/-- C2: the neighbor lookup wraps each axis independently as arithmetic
modulo the grid size — for every in-range cell and offset in `{-1, 0, 1}`,
the wrapped index equals `(x + dx + W) % W` — and on the program's
480×270 grid a live cell at (0,0) is counted (by the step's own counting
loop) as a neighbor of (W−1, 0), (0, H−1) and (W−1, H−1). -/
theorem claim_C2 :
    (∀ (W : Nat) (x : Nat) (dx : Int), 0 < W → x < W → -1 ≤ dx → dx ≤ 1 →
      wrapIdx W ((x : Int) + dx) =
        (((x : Int) + dx + (W : Int)) % (W : Int)).toNat) ∧
    (countNeighbors SIM_WIDTH SIM_HEIGHT singleCell (SIM_WIDTH - 1) 0 = 1 ∧
      countNeighbors SIM_WIDTH SIM_HEIGHT singleCell 0 (SIM_HEIGHT - 1) = 1 ∧
      countNeighbors SIM_WIDTH SIM_HEIGHT singleCell (SIM_WIDTH - 1)
        (SIM_HEIGHT - 1) = 1) := by
  constructor
  · intro W x dx hW hx h1 h2
    unfold wrapIdx
    split
    · rename_i h
      have hR : ((x : Int) + dx + W) % W = (x : Int) + dx + W :=
        Int.emod_eq_of_lt (by omega) (by omega)
      rw [hR]
      omega
    · split
      · rename_i h h2'
        have he : (x : Int) + dx + W = W * 2 := by omega
        rw [he, Int.mul_emod_right]
        simp
      · rename_i h h2'
        have hR : ((x : Int) + dx + W) % W = (x : Int) + dx := by
          rw [show (x : Int) + dx + W = ((x : Int) + dx) + W * 1 by ring,
            Int.add_mul_emod_self_left]
          exact Int.emod_eq_of_lt (by omega) (by omega)
        rw [hR]
  · exact ⟨by decide, by decide, by decide⟩

/-- Witness for C2's wrap equation at a concrete input: on a width-5 grid,
the right neighbor of column 4 wraps to column 0. -/
theorem claim_C2_witness :
    (0 : Nat) < 5 ∧
    wrapIdx 5 (((4 : Nat) : Int) + 1) =
      ((((4 : Nat) : Int) + 1 + ((5 : Nat) : Int)) % ((5 : Nat) : Int)).toNat :=
  ⟨by decide, claim_C2.1 5 4 1 (by decide) (by decide) (by decide) (by decide)⟩

/-- C5: `Try_Paint_Point` returns `true` exactly on in-bounds coordinates;
out-of-bounds coordinates are rejected (state completely unchanged, never
wrapped); in bounds it returns `true` whether or not the cell changed, the
cell is alive in "current" afterwards, an already-alive cell leaves the
state unchanged, and the "next" buffer is never touched. -/
theorem claim_C5 (W H : Nat) (s : SimState) (x y : Int) :
    ((Try_Paint_Point W H s x y).2 = true ↔
      0 ≤ x ∧ 0 ≤ y ∧ x < (W : Int) ∧ y < (H : Int)) ∧
    (¬(0 ≤ x ∧ 0 ≤ y ∧ x < (W : Int) ∧ y < (H : Int)) →
      (Try_Paint_Point W H s x y).1 = s) ∧
    ((Try_Paint_Point W H s x y).1.next = s.next) ∧
    ((0 ≤ x ∧ 0 ≤ y ∧ x < (W : Int) ∧ y < (H : Int)) →
      (Try_Paint_Point W H s x y).1.current x.toNat y.toNat = true) ∧
    ((0 ≤ x ∧ 0 ≤ y ∧ x < (W : Int) ∧ y < (H : Int)) ∧
        s.current x.toNat y.toNat = true →
      (Try_Paint_Point W H s x y).1 = s) := by
  unfold Try_Paint_Point
  by_cases hin : 0 ≤ x ∧ 0 ≤ y ∧ x < (W : Int) ∧ y < (H : Int)
  · rw [if_pos hin]
    by_cases hc : s.current x.toNat y.toNat = false
    · rw [if_pos hc]
      refine ⟨by simp [hin], fun h => absurd hin h, rfl, ?_, ?_⟩
      · intro _
        exact writeCell_same s.current x.toNat y.toNat true
      · rintro ⟨_, hc2⟩
        rw [hc2] at hc
        cases hc
    · rw [if_neg hc]
      refine ⟨by simp [hin], fun h => absurd hin h, rfl, ?_, fun _ => rfl⟩
      intro _
      simpa using hc
  · rw [if_neg hin]
    exact ⟨by simp [hin], fun _ => rfl, rfl, fun h => absurd h hin,
      fun h => absurd h.1 hin⟩

/-- Witness for C5 at a concrete input: painting at (−1, 0) on a 3×3 grid
fails and leaves the startup state unchanged; painting at (2, 2) succeeds. -/
theorem claim_C5_witness :
    (Try_Paint_Point 3 3 initState (-1) 0).2 = false ∧
    (Try_Paint_Point 3 3 initState (-1) 0).1 = initState ∧
    (Try_Paint_Point 3 3 initState 2 2).2 = true := by
  refine ⟨by decide, (claim_C5 3 3 initState (-1) 0).2.1 (by decide), ?_⟩
  exact (claim_C5 3 3 initState 2 2).1.2 (by decide)

theorem shallowLoop_succ (stp dx dy : Int) (m : Nat) (x y e : Int) :
    shallowLoop stp dx dy (m + 1) x y e = (x, y) ::
      (if e > 0 then shallowLoop stp dx dy m (x + 1) (y + stp) (e - 2 * dx + 2 * dy)
       else shallowLoop stp dx dy m (x + 1) y (e + 2 * dy)) := rfl

theorem steepLoop_succ (stp dx dy : Int) (m : Nat) (x y e : Int) :
    steepLoop stp dx dy (m + 1) x y e = (x, y) ::
      (if e > 0 then steepLoop stp dx dy m (x + stp) (y + 1) (e - 2 * dy + 2 * dx)
       else steepLoop stp dx dy m x (y + 1) (e + 2 * dx)) := rfl

theorem shallowLoop_one (stp dx dy : Int) (x y e : Int) :
    shallowLoop stp dx dy 1 x y e = [(x, y)] := by
  rw [shallowLoop_succ]
  split <;> rfl

theorem shallowLoop_head_mem (stp dx dy : Int) (m : Nat) (x y e : Int)
    (b : Int × Int) (hb : b ∈ (shallowLoop stp dx dy m x y e).head?) :
    b = (x, y) := by
  cases m with
  | zero => cases hb
  | succ k =>
    rw [shallowLoop_succ] at hb
    simp only [List.head?_cons, Option.mem_some_iff] at hb
    exact hb.symm

/-- Consecutive coordinates emitted by the shallow Bresenham loop differ by
at most one in each axis. -/
theorem shallowLoop_chain (stp dx dy : Int) (hstp : stp = 1 ∨ stp = -1) :
    ∀ (m : Nat) (x y e : Int),
      List.Chain' adjacent (shallowLoop stp dx dy m x y e) := by
  intro m
  induction m with
  | zero => intro x y e; simp [shallowLoop]
  | succ k ih =>
    intro x y e
    rw [shallowLoop_succ]
    refine List.chain'_cons'.2 ⟨?_, ?_⟩
    · intro b hb
      split at hb
      · have := shallowLoop_head_mem stp dx dy k (x + 1) (y + stp) _ b hb
        subst this
        rcases hstp with h | h <;> subst h <;> exact ⟨by omega, by omega⟩
      · have := shallowLoop_head_mem stp dx dy k (x + 1) y _ b hb
        subst this
        exact ⟨by omega, by omega⟩
    · split
      · exact ih (x + 1) (y + stp) _
      · exact ih (x + 1) y _

/-- The last coordinate of the shallow loop: starting in a valid Bresenham
state, the loop advances `x` by exactly the remaining fuel and `y` by some
`j` vertical steps whose accumulated error stays within `±dx`. -/
theorem shallowLoop_last (stp dx dy : Int) (hdy : 0 ≤ dy) (hdd : dy ≤ dx) :
    ∀ (m : Nat) (x y e : Int), 2 * (dy - dx) ≤ e → e ≤ 2 * dy →
      ∃ j : Int,
        (shallowLoop stp dx dy (m + 1) x y e).getLast? =
          some (x + (m : Int), y + stp * j) ∧
        -dx ≤ (e - 2 * dy + dx) + 2 * ((m : Int) * dy - j * dx) ∧
        (e - 2 * dy + dx) + 2 * ((m : Int) * dy - j * dx) ≤ dx := by
  intro m
  induction m with
  | zero =>
    intro x y e hlo hhi
    refine ⟨0, ?_, by push_cast; omega, by push_cast; omega⟩
    rw [shallowLoop_one]
    simp
  | succ k ih =>
    intro x y e hlo hhi
    rw [shallowLoop_succ]
    by_cases he : e > 0
    · rw [if_pos he]
      obtain ⟨j, hlast, hb1, hb2⟩ :=
        ih (x + 1) (y + stp) (e - 2 * dx + 2 * dy) (by omega) (by omega)
      refine ⟨j + 1, ?_, ?_, ?_⟩
      · rw [shallowLoop_succ, List.getLast?_cons_cons, ← shallowLoop_succ, hlast]
        simp only [Option.some.injEq, Prod.mk.injEq]
        constructor
        · push_cast
          ring
        · ring
      · have harith : (e - 2 * dy + dx) + 2 * (((k : Nat) + 1 : Int) * dy - (j + 1) * dx) =
            ((e - 2 * dx + 2 * dy) - 2 * dy + dx) + 2 * ((k : Int) * dy - j * dx) := by
          ring
        rw [show ((k + 1 : Nat) : Int) = ((k : Nat) + 1 : Int) by push_cast; ring, harith]
        exact hb1
      · have harith : (e - 2 * dy + dx) + 2 * (((k : Nat) + 1 : Int) * dy - (j + 1) * dx) =
            ((e - 2 * dx + 2 * dy) - 2 * dy + dx) + 2 * ((k : Int) * dy - j * dx) := by
          ring
        rw [show ((k + 1 : Nat) : Int) = ((k : Nat) + 1 : Int) by push_cast; ring, harith]
        exact hb2
    · rw [if_neg he]
      obtain ⟨j, hlast, hb1, hb2⟩ :=
        ih (x + 1) y (e + 2 * dy) (by omega) (by omega)
      refine ⟨j, ?_, ?_, ?_⟩
      · rw [shallowLoop_succ, List.getLast?_cons_cons, ← shallowLoop_succ, hlast]
        simp only [Option.some.injEq, Prod.mk.injEq]
        constructor
        · push_cast
          ring
        · trivial
      · have harith : (e - 2 * dy + dx) + 2 * (((k : Nat) + 1 : Int) * dy - j * dx) =
            ((e + 2 * dy) - 2 * dy + dx) + 2 * ((k : Int) * dy - j * dx) := by
          ring
        rw [show ((k + 1 : Nat) : Int) = ((k : Nat) + 1 : Int) by push_cast; ring, harith]
        exact hb1
      · have harith : (e - 2 * dy + dx) + 2 * (((k : Nat) + 1 : Int) * dy - j * dx) =
            ((e + 2 * dy) - 2 * dy + dx) + 2 * ((k : Int) * dy - j * dx) := by
          ring
        rw [show ((k + 1 : Nat) : Int) = ((k : Nat) + 1 : Int) by push_cast; ring, harith]
        exact hb2

/-- `Paint_Line_Shallow` (called as `Paint_Line` calls it, with
`dx = |x1−x0|`, `dy = |y1−y0|`, `x0 ≤ x1`, slope at most 1) starts at
`(x0, y0)` and ends exactly at `(x1, y1)`. -/
theorem Paint_Line_Shallow_endpoints (x0 y0 x1 y1 : Int) (hx : x0 ≤ x1)
    (hd : |y1 - y0| ≤ |x1 - x0|) :
    (Paint_Line_Shallow_pts x0 y0 x1 y1 |x1 - x0| |y1 - y0|).head? =
      some (x0, y0) ∧
    (Paint_Line_Shallow_pts x0 y0 x1 y1 |x1 - x0| |y1 - y0|).getLast? =
      some (x1, y1) := by
  have hdxv : |x1 - x0| = x1 - x0 := abs_of_nonneg (by omega)
  have hfuel : (x1 - x0 + 1).toNat = (x1 - x0).toNat + 1 := by omega
  have hm : (((x1 - x0).toNat : Nat) : Int) = x1 - x0 := Int.toNat_of_nonneg (by omega)
  unfold Paint_Line_Shallow_pts
  rw [hfuel]
  constructor
  · rw [shallowLoop_succ]
    rfl
  · by_cases hz : x1 - x0 = 0
    · rw [show (x1 - x0).toNat = 0 by omega, shallowLoop_one]
      have hy1 : |y1 - y0| ≤ 0 := by
        rw [hdxv] at hd
        linarith
      have hy2 : y1 - y0 = 0 := abs_eq_zero.mp (le_antisymm hy1 (abs_nonneg _))
      have hx1 : x0 = x1 := by omega
      have hy3 : y0 = y1 := by omega
      rw [hx1, hy3]
      rfl
    · obtain ⟨j, hlast, hb1, hb2⟩ :=
        shallowLoop_last (if y1 < y0 then -1 else 1) |x1 - x0| |y1 - y0|
          (abs_nonneg _) hd (x1 - x0).toNat x0 y0 (2 * |y1 - y0| - |x1 - x0|)
          (by have := abs_nonneg (x1 - x0); linarith)
          (by have := abs_nonneg (x1 - x0); linarith)
      rw [hlast]
      simp only [Option.some.injEq, Prod.mk.injEq]
      have he : (2 * |y1 - y0| - |x1 - x0| - 2 * |y1 - y0| + |x1 - x0|) +
          2 * ((((x1 - x0).toNat : Nat) : Int) * |y1 - y0| - j * |x1 - x0|) =
          2 * ((x1 - x0) * (|y1 - y0| - j)) := by
        rw [hm, hdxv]
        ring
      have hdx_pos : 0 < x1 - x0 := by omega
      have hj : |y1 - y0| = j := by
        rcases lt_trichotomy j (|y1 - y0|) with h | h | h
        · exfalso
          have h1 : 1 ≤ |y1 - y0| - j := by linarith
          have h2 : (x1 - x0) * 1 ≤ (x1 - x0) * (|y1 - y0| - j) :=
            mul_le_mul_of_nonneg_left h1 (by omega)
          linarith [he, hb2, hdxv]
        · exact h.symm
        · exfalso
          have h1 : |y1 - y0| - j ≤ -1 := by linarith
          have h2 : (x1 - x0) * (|y1 - y0| - j) ≤ (x1 - x0) * (-1) :=
            mul_le_mul_of_nonneg_left h1 (by omega)
          linarith [he, hb1, hdxv]
      constructor
      · omega
      · rw [← hj]
        by_cases hy : y1 < y0
        · rw [if_pos hy, abs_of_neg (show y1 - y0 < 0 by omega)]
          ring
        · rw [if_neg hy, abs_of_nonneg (show 0 ≤ y1 - y0 by omega)]
          ring

theorem steepLoop_eq_swap (stp dx dy : Int) : ∀ (n : Nat) (x y e : Int),
    steepLoop stp dx dy n x y e = (shallowLoop stp dy dx n y x e).map Prod.swap := by
  intro n
  induction n with
  | zero => intro x y e; rfl
  | succ k ih =>
    intro x y e
    rw [steepLoop_succ, shallowLoop_succ, List.map_cons]
    congr 1
    by_cases he : e > 0
    · rw [if_pos he, if_pos he, ih]
    · rw [if_neg he, if_neg he, ih]

/-- `Paint_Line_Steep` is the axis-swapped mirror of `Paint_Line_Shallow`. -/
theorem Paint_Line_Steep_pts_eq (x0 y0 x1 y1 dx dy : Int) :
    Paint_Line_Steep_pts x0 y0 x1 y1 dx dy =
      (Paint_Line_Shallow_pts y0 x0 y1 x1 dy dx).map Prod.swap := by
  unfold Paint_Line_Steep_pts Paint_Line_Shallow_pts
  exact steepLoop_eq_swap (if x1 < x0 then -1 else 1) dx dy (y1 - y0 + 1).toNat x0 y0 (2 * dx - dy)

theorem Paint_Line_Shallow_pts_chain (x0 y0 x1 y1 dx dy : Int) :
    List.Chain' adjacent (Paint_Line_Shallow_pts x0 y0 x1 y1 dx dy) := by
  unfold Paint_Line_Shallow_pts
  have hstp : (if y1 < y0 then (-1 : Int) else 1) = 1 ∨
      (if y1 < y0 then (-1 : Int) else 1) = -1 := by
    by_cases hy : y1 < y0
    · exact Or.inr (if_pos hy)
    · exact Or.inl (if_neg hy)
  exact shallowLoop_chain _ dx dy hstp _ x0 y0 _

theorem chain_adjacent_map_swap (l : List (Int × Int))
    (h : List.Chain' adjacent l) :
    List.Chain' adjacent (l.map Prod.swap) := by
  rw [List.chain'_map]
  exact h.imp (fun a b hpq => ⟨hpq.2, hpq.1⟩)

/-- C7: for every pair of integer endpoints, the sequence of coordinates
`Paint_Line` visits is gap-free (consecutive points differ by at most 1 in
each axis) and its first and last coordinates are the two input endpoints,
in input order or swapped according to the direction normalization. -/
theorem claim_C7 (x0 y0 x1 y1 : Int) :
    List.Chain' adjacent (Paint_Line_pts x0 y0 x1 y1) ∧
    (((Paint_Line_pts x0 y0 x1 y1).head? = some (x0, y0) ∧
        (Paint_Line_pts x0 y0 x1 y1).getLast? = some (x1, y1)) ∨
      ((Paint_Line_pts x0 y0 x1 y1).head? = some (x1, y1) ∧
        (Paint_Line_pts x0 y0 x1 y1).getLast? = some (x0, y0))) := by
  unfold Paint_Line_pts
  by_cases hs : |y1 - y0| ≤ |x1 - x0|
  · simp only [hs, if_true]
    by_cases hxo : x0 ≤ x1
    · simp only [hxo, if_true]
      refine ⟨Paint_Line_Shallow_pts_chain x0 y0 x1 y1 _ _, Or.inl ?_⟩
      exact Paint_Line_Shallow_endpoints x0 y0 x1 y1 hxo hs
    · simp only [hxo, if_false]
      have e1 : |x1 - x0| = |x0 - x1| := abs_sub_comm x1 x0
      have e2 : |y1 - y0| = |y0 - y1| := abs_sub_comm y1 y0
      rw [e1, e2]
      refine ⟨Paint_Line_Shallow_pts_chain x1 y1 x0 y0 _ _, Or.inr ?_⟩
      refine Paint_Line_Shallow_endpoints x1 y1 x0 y0 (by omega) ?_
      rw [← e1, ← e2]
      exact hs
  · simp only [hs, if_false]
    by_cases hyo : y0 ≤ y1
    · simp only [hyo, if_true]
      rw [Paint_Line_Steep_pts_eq]
      have hd : |x1 - x0| ≤ |y1 - y0| := by
        have := lt_of_not_ge hs
        omega
      obtain ⟨hh, hl⟩ := Paint_Line_Shallow_endpoints y0 x0 y1 x1 hyo hd
      refine ⟨chain_adjacent_map_swap _
        (Paint_Line_Shallow_pts_chain y0 x0 y1 x1 _ _), Or.inl ?_⟩
      rw [List.head?_map, List.getLast?_map, hh, hl]
      exact ⟨rfl, rfl⟩
    · simp only [hyo, if_false]
      rw [Paint_Line_Steep_pts_eq]
      have e1 : |x1 - x0| = |x0 - x1| := abs_sub_comm x1 x0
      have e2 : |y1 - y0| = |y0 - y1| := abs_sub_comm y1 y0
      have hd : |x0 - x1| ≤ |y0 - y1| := by
        rw [← e1, ← e2]
        have := lt_of_not_ge hs
        omega
      rw [e1, e2]
      obtain ⟨hh, hl⟩ := Paint_Line_Shallow_endpoints y1 x1 y0 x0 (by omega) hd
      refine ⟨chain_adjacent_map_swap _
        (Paint_Line_Shallow_pts_chain y1 x1 y0 x0 _ _), Or.inr ?_⟩
      rw [List.head?_map, List.getLast?_map, hh, hl]
      exact ⟨rfl, rfl⟩

/-- C8: the zero-length line from (2,2) to (2,2) visits exactly the single
coordinate (2,2); it is dispatched to the shallow rasterizer (`dy ≤ dx`
holds at 0 = 0) whose loop runs exactly once. -/
theorem claim_C8 :
    Paint_Line_pts 2 2 2 2 = [(2, 2)] ∧
    (Paint_Line_pts 2 2 2 2).length = 1 ∧
    Paint_Line_pts 2 2 2 2 = Paint_Line_Shallow_pts 2 2 2 2 0 0 := by
  refine ⟨by decide, by decide, by decide⟩

/-- C9: the wheel clamp keeps the rate in `[0, MAX_STEPS_PER_SECOND]` (so
it can never become negative); with rate 0 the frame tick never invokes
`Update_Simulation` across any sequence of frames and elapsed times; and
the pause condition is exactly rate = 0: any positive rate admits an
elapsed time that triggers a step. -/
theorem claim_C9 :
    (∀ rate delta : ℚ, 0 ≤ wheelAdjust rate delta ∧
      wheelAdjust rate delta ≤ MAX_STEPS_PER_SECOND) ∧
    (∀ (p : PacingState) (nows : List Nat), p.rate = 0 →
      frameStepCount p nows = 0) ∧
    (∀ p : PacingState, 0 < p.rate →
      ∃ now : Nat, (appIterateGate p now).2 = true) := by
  refine ⟨?_, ?_, ?_⟩
  · intro r d
    unfold wheelAdjust MAX_STEPS_PER_SECOND
    dsimp only
    split_ifs with h1 h2 h3 <;> constructor <;> linarith
  · intro p nows hp
    induction nows generalizing p with
    | nil => rfl
    | cons now rest ih =>
      show (if (appIterateGate p now).2 = true then 1 else 0) +
          frameStepCount (appIterateGate p now).1 rest = 0
      have hgate : appIterateGate p now = (p, false) := by
        unfold appIterateGate
        rw [if_neg (by rw [hp]; exact lt_irrefl 0)]
      rw [hgate]
      simp only [Bool.false_eq_true, if_false, Nat.zero_add]
      exact ih p hp
  · intro p hp
    refine ⟨p.lastStepTime + Nat.ceil (1000 / p.rate), ?_⟩
    simp only [appIterateGate, if_pos hp]
    split
    · rfl
    · rename_i hcon
      exfalso
      apply hcon
      have h2 : p.lastStepTime + Nat.ceil (1000 / p.rate) - p.lastStepTime =
          Nat.ceil (1000 / p.rate) := by omega
      rw [h2]
      have h1 : (1000 / p.rate : ℚ) ≤ ((Nat.ceil (1000 / p.rate) : Nat) : ℚ) :=
        Nat.le_ceil _
      calc (1 / p.rate : ℚ) = (1000 / p.rate) / 1000 := by ring
        _ ≤ ((Nat.ceil (1000 / p.rate) : Nat) : ℚ) / 1000 :=
            (div_le_div_iff_of_pos_right (by norm_num)).2 h1

/-- Witness for C9 at concrete inputs: with rate 0 three frames at widely
spaced tick values never step, and a wheel delta of −5 still leaves a
non-negative rate. -/
theorem claim_C9_witness :
    frameStepCount ⟨0, 0⟩ [5, 1000, 100000] = 0 ∧
    0 ≤ wheelAdjust 0 (-5) :=
  ⟨claim_C9.2.1 ⟨0, 0⟩ [5, 1000, 100000] rfl, (claim_C9.1 0 (-5)).1⟩

theorem Inv_init (W H : Nat) : Inv W H initState := by
  refine ⟨fun x y _ => rfl, fun x y _ => rfl, List.nodup_nil, ?_⟩
  intro p
  simp [initState]

theorem Inv_paint (W H : Nat) (s : SimState) (x y : Int) (hs : Inv W H s) :
    Inv W H (Try_Paint_Point W H s x y).1 := by
  obtain ⟨hcur, hnext, hnd, hmem⟩ := hs
  unfold Try_Paint_Point
  by_cases hin : 0 ≤ x ∧ 0 ≤ y ∧ x < (W : Int) ∧ y < (H : Int)
  · rw [if_pos hin]
    by_cases hc : s.current x.toNat y.toNat = false
    · rw [if_pos hc]
      dsimp only
      have haW : x.toNat < W := by omega
      have hbH : y.toNat < H := by omega
      have hnotmem : (x.toNat, y.toNat) ∉ s.renderPoints := by
        intro hm
        have := (hmem (x.toNat, y.toNat)).1 hm
        rw [this.2.2] at hc
        cases hc
      refine ⟨?_, hnext, ?_, ?_⟩
      · intro a b hab
        show writeCell s.current x.toNat y.toNat true a b = false
        rw [writeCell_ne s.current x.toNat y.toNat true a b
          (by rintro ⟨rfl, rfl⟩; exact hab ⟨haW, hbH⟩)]
        exact hcur a b hab
      · exact (List.nodup_append).2
          ⟨hnd, List.nodup_singleton _, by simpa using hnotmem⟩
      · intro p
        show p ∈ s.renderPoints ++ [(x.toNat, y.toNat)] ↔
          p.1 < W ∧ p.2 < H ∧
            writeCell s.current x.toNat y.toNat true p.1 p.2 = true
        simp only [List.mem_append, List.mem_singleton]
        constructor
        · rintro (hp | rfl)
          · have h1 := (hmem p).1 hp
            refine ⟨h1.1, h1.2.1, ?_⟩
            unfold writeCell
            split
            · rfl
            · exact h1.2.2
          · exact ⟨haW, hbH, writeCell_same _ _ _ _⟩
        · rintro ⟨h1, h2, h3⟩
          by_cases hp : p.1 = x.toNat ∧ p.2 = y.toNat
          · right
            rcases p with ⟨a, b⟩
            simp only at hp
            rw [hp.1, hp.2]
          · left
            rw [writeCell_ne s.current x.toNat y.toNat true p.1 p.2 hp] at h3
            exact (hmem p).2 ⟨h1, h2, h3⟩
    · rw [if_neg hc]
      exact ⟨hcur, hnext, hnd, hmem⟩
  · rw [if_neg hin]
    exact ⟨hcur, hnext, hnd, hmem⟩

theorem Inv_paint_fold (W H : Nat) (l : List (Int × Int)) :
    ∀ s : SimState, Inv W H s →
      Inv W H (l.foldl (fun st p => (Try_Paint_Point W H st p.1 p.2).1) s) := by
  induction l with
  | nil => intro s hs; exact hs
  | cons p rest ih =>
    intro s hs
    exact ih _ (Inv_paint W H s p.1 p.2 hs)

theorem Inv_line (W H : Nat) (s : SimState) (x0 y0 x1 y1 : Int)
    (hs : Inv W H s) : Inv W H (Paint_Line_state W H s x0 y0 x1 y1) :=
  Inv_paint_fold W H (Paint_Line_pts x0 y0 x1 y1) s hs

theorem Inv_step (W H : Nat) (s : SimState) (hs : Inv W H s) :
    Inv W H (Update_Simulation W H s) := by
  obtain ⟨hcur, hnext, _, _⟩ := hs
  refine ⟨?_, ?_, ?_, ?_⟩
  · intro a b hab
    rw [Update_Simulation_current_out W H s a b hab]
    exact hnext a b hab
  · intro a b hab
    rw [Update_Simulation_next]
    exact hcur a b hab
  · rw [Update_Simulation_renderPoints]
    exact (allCells_nodup W H).filter _
  · intro p
    rw [Update_Simulation_renderPoints, List.mem_filter]
    constructor
    · rintro ⟨hp, hstep⟩
      have hb := (allCells_mem W H p).1 hp
      exact ⟨hb.1, hb.2,
        by rw [Update_Simulation_current W H s p.1 p.2 hb.1 hb.2]; exact hstep⟩
    · rintro ⟨h1, h2, h3⟩
      rw [Update_Simulation_current W H s p.1 p.2 h1 h2] at h3
      exact ⟨(allCells_mem W H p).2 ⟨h1, h2⟩, h3⟩

theorem Inv_reachable (W H : Nat) (s : SimState) (h : Reachable W H s) :
    Inv W H s := by
  induction h with
  | init => exact Inv_init W H
  | paint s x y _ ih => exact Inv_paint W H s x y ih
  | line s x0 y0 x1 y1 _ ih => exact Inv_line W H s x0 y0 x1 y1 ih
  | step s _ ih => exact Inv_step W H s ih

/-- C10: in every reachable state, the render buffer's length equals the
number of live cells in "current", the buffer has no duplicate coordinate,
and its length never exceeds `W * H` (so every append stays within the
`W * H`-sized array). -/
theorem claim_C10 (W H : Nat) (s : SimState) (h : Reachable W H s) :
    s.renderPoints.length =
      ((allCells W H).filter (fun p => s.current p.1 p.2)).length ∧
    s.renderPoints.Nodup ∧
    s.renderPoints.length ≤ W * H := by
  obtain ⟨hcur, hnext, hnd, hmem⟩ := Inv_reachable W H s h
  have hfilnd : ((allCells W H).filter
      (fun p => s.current p.1 p.2)).Nodup := (allCells_nodup W H).filter _
  have hsetEq : s.renderPoints.toFinset =
      ((allCells W H).filter (fun p => s.current p.1 p.2)).toFinset := by
    ext p
    rw [List.mem_toFinset, List.mem_toFinset, List.mem_filter, allCells_mem,
      hmem]
    tauto
  have hlen : s.renderPoints.length =
      ((allCells W H).filter (fun p => s.current p.1 p.2)).length := by
    rw [← List.toFinset_card_of_nodup hnd, ← List.toFinset_card_of_nodup hfilnd,
      hsetEq]
  refine ⟨hlen, hnd, ?_⟩
  rw [hlen]
  calc ((allCells W H).filter (fun p => s.current p.1 p.2)).length
      ≤ (allCells W H).length := List.length_filter_le _ _
    _ = W * H := allCells_length W H

/-- Witness for C10 at a concrete reachable state: the startup state after
one successful paint at (1,1) on a 3×3 grid. -/
theorem claim_C10_witness :
    (Try_Paint_Point 3 3 initState 1 1).1.renderPoints.length =
      ((allCells 3 3).filter
        (fun p => (Try_Paint_Point 3 3 initState 1 1).1.current p.1 p.2)).length ∧
    (Try_Paint_Point 3 3 initState 1 1).1.renderPoints.Nodup ∧
    (Try_Paint_Point 3 3 initState 1 1).1.renderPoints.length ≤ 3 * 3 :=
  claim_C10 3 3 (Try_Paint_Point 3 3 initState 1 1).1
    (Reachable.paint initState 1 1 Reachable.init)

end Cells
